import Mathlib

/-!
Verification of the efm-langserver diagnostic pipeline.

Shallow embedding of `langserver/handler.go` (and the `didOpen` handler):
the per-language configuration, the path/URI normalizer, the diagnostic
builder inside `lint`, the document store operations, the `NewHandler`
default-format preprocessing, and the single-worker `linter` loop.

External collaborators (the errorformat pattern engine, `filepath.Abs`,
`url.ParseRequestURI`, process execution) are black boxes in the source and
are modelled as function parameters; Go byte indexing and `unicode` letter
tests are modelled on characters (the paths and drive letters involved are
ASCII). Go `nil` slices are `Option.none`; Go maps are association lists.
-/

namespace EfmLangServer

/-- Per-language configuration, struct `Config` in handler.go.
`LintErrorFormats` is a Go slice that can be `nil` (`none`). `LintOffset`
is a Go `int`, kept as `Int` (the arithmetic below may go negative). -/
structure Config where
  LintErrorFormats : Option (List String)
  LintStdin : Bool
  LintOffset : Int
  LintCommand : String
deriving Repr, DecidableEq

/-- The Go zero value `Config\x7b\x7d` (nil slice, false, 0, empty string). -/
def Config.zero : Config := ⟨none, false, 0, ""⟩

/-- Struct `File` in handler.go: language id and full text of an open document. -/
structure File where
  LanguageId : String
  Text : String
deriving Repr, DecidableEq

/-- LSP position as built by `lint`: zero-based line and character, Go `int`. -/
structure Position where
  Line : Int
  Character : Int
deriving Repr, DecidableEq

/-- LSP range: start and end position. -/
structure Range where
  Start : Position
  End : Position
deriving Repr, DecidableEq

/-- LSP diagnostic as built by `lint`: range, message, severity. -/
structure Diagnostic where
  Range : Range
  Message : String
  Severity : Int
deriving Repr, DecidableEq

/-- One match produced by the errorformat engine for one output line:
file, 1-based line, 1-based column (0 = unknown), message — the four
fields `lint` reads (`m.F`, `m.L`, `m.C`, `m.M`). -/
structure Match where
  F : String
  L : Int
  C : Int
  M : String
deriving Repr, DecidableEq

/-- A compiled errorformat entry (`errorformat.Efm`), black box: its `Match`
method takes an output line and yields an optional `Match`. -/
def Efm : Type := String → Option Match

/-- Go `filepath.ToSlash`: on Windows replace every `\` separator by `/`
(charwise, as `strings.ReplaceAll` on the one-byte separator); on other
platforms the identity. -/
def toSlash (isWindows : Bool) (s : String) : String :=
  if isWindows then ⟨s.data.map (fun c => if c = '\\' then '/' else c)⟩ else s

/-- Go `strings.ToLower`, charwise per rune. -/
def toLowerGo (s : String) : String := ⟨s.data.map Char.toLower⟩

/-- The path normalization `lint` applies both to the document path
(lines 120–122) and to the resolved match path (lines 166–169):
slashes forward, lower-cased on Windows. -/
def normPath (isWindows : Bool) (p : String) : String :=
  let p := toSlash isWindows p
  if isWindows then toLowerGo p else p

/-- handler.go `isWindowsDrivePath`: length at least 4, a letter, then a colon. -/
def isWindowsDrivePath (path : String) : Bool :=
  if path.length < 4 then false
  else (path.data.getD 0 ' ').isAlpha && (path.data.getD 1 ' ' == ':')

/-- handler.go `isWindowsDriveURI`: length at least 4, then `/`, a letter, a colon. -/
def isWindowsDriveURI (uri : String) : Bool :=
  if uri.length < 4 then false
  else (uri.data.getD 0 ' ' == '/') && (uri.data.getD 1 ' ').isAlpha
        && (uri.data.getD 2 ' ' == ':')

/-- The two fields of `url.URL` that `fromURI`/`toURI` use. -/
structure URL where
  Scheme : String
  Path : String
deriving Repr, DecidableEq

/-- handler.go `fromURI` after `url.ParseRequestURI` has produced the `URL`
value (the stdlib parse/serialize pair round-trips file URLs): reject
non-`file` schemes, and strip the leading slash of a `/c:`-style path
(Go `u.Path[1:]`, a one-byte drop). -/
def fromURIOfURL (u : URL) : Except String String :=
  if u.Scheme ≠ "file" then .error ("only file URIs are supported, got " ++ u.Scheme)
  else if isWindowsDriveURI u.Path then .ok ⟨u.Path.data.drop 1⟩
  else .ok u.Path

/-- handler.go `toURI`: prefix a Windows drive path with `/`, then build a
`file`-scheme URL with the slash-normalized path. -/
def toURI (isWindows : Bool) (path : String) : URL :=
  let path := if isWindowsDrivePath path then "/" ++ path else path
  ⟨"file", toSlash isWindows path⟩

/-- The two built-in error formats hard-coded in `NewHandler`. -/
def defaultLintErrorFormats : List String := ["%f:%l:%m", "%f:%l:%c:%m"]

/-- Go `len` on a possibly-nil slice (`len(nil) = 0`). -/
def sliceLen : Option (List String) → Int
  | none => 0
  | some l => l.length

/-- Body of the `for _, v := range configs` loop in `NewHandler`, acting on
the loop variable `v`: when the format slice is nil (or its length is `-1`,
which never holds) set the two defaults on `v`. -/
def newHandlerLoopBody (v : Config) : Config :=
  if v.LintErrorFormats.isNone || (sliceLen v.LintErrorFormats == -1) then
    { v with LintErrorFormats := some defaultLintErrorFormats }
  else v

/-- The configuration map the handler actually stores after `NewHandler`'s
preprocessing loop. Go `range` over a map binds `v` to a copy of each value;
the loop body assigns into that copy and never writes back into the map,
so the fold computes `newHandlerLoopBody` on each value, discards it, and
the stored map is the input map. -/
def newHandlerConfigs (configs : List (String × Config)) : List (String × Config) :=
  configs.foldl (fun acc kv =>
    let _v : Config := newHandlerLoopBody kv.2
    acc) configs

/-- Modelled from the spec: the intended preprocessing — the stored
configuration of every language whose pattern list is unset becomes the two
built-in defaults (what the `NewHandler` loop would do if it wrote back). -/
def newHandlerConfigsSpec (configs : List (String × Config)) : List (String × Config) :=
  configs.map (fun kv => (kv.1, newHandlerLoopBody kv.2))

/-- The file the match is charged to after lines 154–158 of `lint`:
under stdin delivery the placeholders `stdin` and `-` become the document
path `fname`; otherwise the reported file is slash-normalized. -/
def effectiveFile (isWindows : Bool) (config : Config) (fname : String) (m : Match) : String :=
  if config.LintStdin ∧ (m.F = "stdin" ∨ m.F = "-") then fname else toSlash isWindows m.F

/-- Lines 159–161 of `lint`: a reported column of 0 (unknown) becomes 1. -/
def defaultColumn (m : Match) : Match :=
  if m.C = 0 then { m with C := 1 } else m

/-- Lines 173–180 of `lint`: the diagnostic built from a surviving match —
a point range at `(L − 1 − LintOffset, C − 1)`, the match message,
severity 1. -/
def buildDiagnostic (config : Config) (m : Match) : Diagnostic :=
  { Range := { Start := { Line := m.L - 1 - config.LintOffset, Character := m.C - 1 },
               End := { Line := m.L - 1 - config.LintOffset, Character := m.C - 1 } },
    Message := m.M,
    Severity := 1 }

/-- Lines 154–180 of `lint`, the per-match pipeline: stdin substitution /
slash normalization, column defaulting, `filepath.Abs` (black box `absPath`;
`none` is the error case, dropped by `continue`), normalization of the
resolved path, the same-document filter, and the diagnostic construction.
`none` means the match contributes no diagnostic. -/
def processMatch (isWindows : Bool) (absPath : String → Option String)
    (config : Config) (fname : String) (m : Match) : Option Diagnostic :=
  let m1 : Match :=
    if config.LintStdin ∧ (m.F = "stdin" ∨ m.F = "-") then { m with F := fname }
    else { m with F := toSlash isWindows m.F }
  let m2 : Match := if m1.C = 0 then { m1 with C := 1 } else m1
  match absPath m2.F with
  | none => none
  | some p =>
    let p2 := normPath isWindows p
    if p2 ≠ fname then none
    else some (buildDiagnostic config m2)

/-- Lines 148–182 of `lint`: the captured output is split into lines; each
line is run against every compiled errorformat entry in order, and each
surviving match appends its diagnostic to the accumulator. -/
def lintLines (isWindows : Bool) (absPath : String → Option String) (efms : List Efm)
    (config : Config) (fname : String) (outputLines : List String) : List Diagnostic :=
  outputLines.foldl
    (fun diagnostics line =>
      efms.foldl
        (fun diagnostics ef =>
          match ef line with
          | none => diagnostics
          | some m =>
            match processMatch isWindows absPath config fname m with
            | none => diagnostics
            | some d => diagnostics ++ [d])
        diagnostics)
    []

/-- Outcome of `cmd.CombinedOutput()`: whether `err == nil` (the command
exited zero) and the captured combined output. -/
structure ExecResult where
  exitOk : Bool
  output : String
deriving Repr, DecidableEq

/-- handler.go `configFor`: the empty configuration when the document is
unknown, otherwise the Go map read `h.configs[f.LanguageId]`, whose miss
yields the zero value. -/
def configFor (files : List (String × File)) (configs : List (String × Config))
    (uri : String) : Config :=
  match files.lookup uri with
  | none => Config.zero
  | some f => (configs.lookup f.LanguageId).getD Config.zero

/-- handler.go `lint` (lines 108–185). Black-box parameters: `parseURI` for
`url.ParseRequestURI`, `absPath` for `filepath.Abs`, `compile` for
`errorformat.NewErrorformat` (fed the Go slice, `[]` when nil), and `run`
for the shell execution of the command (arguments: command string, the
stdin flag, the document text). Every error path logs and returns the nil
slice, modelled as `[]`; a zero exit status returns the still-empty
`diagnostics` slice. -/
def lint (isWindows : Bool) (parseURI : String → Option URL)
    (absPath : String → Option String)
    (compile : List String → Option (List Efm))
    (run : String → Bool → String → ExecResult)
    (files : List (String × File)) (configs : List (String × Config))
    (uri : String) : List Diagnostic :=
  match files.lookup uri with
  | none => []
  | some f =>
    match parseURI uri with
    | none => []
    | some u =>
      match fromURIOfURL u with
      | .error _ => []
      | .ok fname0 =>
        let fname := normPath isWindows fname0
        let config := configFor files configs uri
        match compile (config.LintErrorFormats.getD []) with
        | none => []
        | some efms =>
          let res := run config.LintCommand config.LintStdin f.Text
          if res.exitOk then []
          else lintLines isWindows absPath efms config fname (res.output.splitOn "\n")

/-- Go map assignment `m[k] = v` on the association-list model: replace the
binding if present, append it otherwise (so the store never holds two
entries for one key). -/
def mapInsert (m : List (String × File)) (k : String) (v : File) : List (String × File) :=
  match m with
  | [] => [(k, v)]
  | (k0, v0) :: rest => if k0 = k then (k, v) :: rest else (k0, v0) :: mapInsert rest k v

/-- The parts of `langHandler` state the document-store operations touch:
the open-files map and, instead of the unbuffered channel, the ordered list
of URIs handed to it (`sent`). -/
structure LangHandler where
  files : List (String × File)
  sent : List String
deriving Repr, DecidableEq

/-- handler.go `openFile`: store a `File` with empty text and the given
language id (its Go error result is always nil). -/
def LangHandler.openFile (h : LangHandler) (uri languageId : String) : LangHandler :=
  { h with files := mapInsert h.files uri ⟨languageId, ""⟩ }

/-- handler.go `updateFile`: error when the document is unknown; otherwise
replace its text and hand the URI to the linter channel (a blocking send;
the handoff order is the order of `sent`). -/
def LangHandler.updateFile (h : LangHandler) (uri text : String) : Except String LangHandler :=
  match h.files.lookup uri with
  | none => .error ("document not found: " ++ uri)
  | some f =>
    .ok { h with files := mapInsert h.files uri { f with Text := text },
                 sent := h.sent ++ [uri] }

/-- The parsed fields of a `didOpen` notification's `TextDocument` item. -/
structure DidOpenTextDocumentItem where
  URI : String
  LanguageID : String
  Text : String
deriving Repr, DecidableEq

/-- `handleTextDocumentDidOpen` after a successful unmarshal: `openFile`
with the declared language, then `updateFile` with the initial text,
surfacing `updateFile`'s error. -/
def handleTextDocumentDidOpen (h : LangHandler) (td : DidOpenTextDocumentItem) :
    Except String LangHandler :=
  (h.openFile td.URI td.LanguageID).updateFile td.URI td.Text

/-- State of the `linter` worker system: the FIFO queue of handed-off URIs
(blocked senders of the unbuffered channel are served in order), the at
most one request the single worker goroutine is processing, and the
sequence of `publishDiagnostics` notifications sent so far. -/
structure LinterState where
  queue : List String
  running : Option String
  published : List (String × List Diagnostic)

/-- The `linter` loop (lines 92–106) as a step relation, parameterized by
the result `lintFn` of `h.lint` on a URI: the idle worker takes the head
of the queue, and a worker that finishes a run publishes that run's
diagnostics. The single `running` slot is the single worker goroutine. -/
inductive LinterStep (lintFn : String → List Diagnostic) : LinterState → LinterState → Prop
  | take (u : String) (q : List String) (p : List (String × List Diagnostic)) :
      LinterStep lintFn ⟨u :: q, none, p⟩ ⟨q, some u, p⟩
  | publish (u : String) (q : List String) (p : List (String × List Diagnostic)) :
      LinterStep lintFn ⟨q, some u, p⟩ ⟨q, none, p ++ [(u, lintFn u)]⟩

/-- Bookkeeping for the worker model: the publishes already sent followed by
the publishes the pending work will produce, in order. -/
def pendingAll (lintFn : String → List Diagnostic) (s : LinterState) :
    List (String × List Diagnostic) :=
  s.published ++ (s.running.toList ++ s.queue).map (fun u => (u, lintFn u))

/-- Concrete `filepath.Abs` for witnesses: paths are resolved against a
working directory `/work`. -/
def absWork : String → Option String := fun s =>
  if s.data.getD 0 ' ' = '/' then some s else some ("/work/" ++ s)

/-- Concrete compiled pattern: matches the output line `a.c:1:2:boom` as
`file a.c, line 1, column unknown, message 2:boom` (the `%f:%l:%m` reading). -/
def efmA : Efm := fun line =>
  if line = "a.c:1:2:boom" then some ⟨"a.c", 1, 0, "2:boom"⟩ else none

/-- Concrete compiled pattern: matches the output line `a.c:1:2:boom` as
`file a.c, line 1, column 2, message boom` (the `%f:%l:%c:%m` reading). -/
def efmB : Efm := fun line =>
  if line = "a.c:1:2:boom" then some ⟨"a.c", 1, 2, "boom"⟩ else none

/-- Concrete configuration with both default patterns, no offset. -/
def cfgPlain : Config := ⟨some defaultLintErrorFormats, false, 0, "lint"⟩

/-- Concrete configuration using stdin delivery. -/
def cfgStdin : Config := ⟨some defaultLintErrorFormats, true, 0, "lint"⟩

/-- Concrete configuration with a line offset of 5. -/
def cfgOffset5 : Config := ⟨some defaultLintErrorFormats, false, 5, "lint"⟩

/-- Concrete lint result for the worker-model witness: no diagnostics. -/
def lfZero : String → List Diagnostic := fun _ => []

/-- The diagnostic one `(line, pattern)` pair contributes: `none` when the
pattern does not match the line or the match does not survive
`processMatch`. -/
def lineMatch (isWindows : Bool) (absPath : String → Option String) (config : Config)
    (fname : String) (ef : Efm) (line : String) : Option Diagnostic :=
  match ef line with
  | none => none
  | some m => processMatch isWindows absPath config fname m

/-- A configuration whose error-format slice is nil but which carries a
command: the defaulting case of `NewHandler`. -/
def cfgNilFormats : Config := ⟨none, false, 0, "flake8"⟩

/-- Concrete `url.ParseRequestURI` for witnesses: parses the one file URI
the witnesses use. -/
def parseW : String → Option URL := fun s =>
  if s = "file:///w/a.c" then some ⟨"file", "/w/a.c"⟩ else none

/-- Concrete `errorformat.NewErrorformat` for witnesses: compiles any list
of format strings to no entries. -/
def compileEmpty : List String → Option (List Efm) := fun _ => some []

/-- Concrete command execution for witnesses: every command exits zero with
empty output (as the empty shell command does). -/
def runOkEmpty : String → Bool → String → ExecResult := fun _ _ _ => ⟨true, ""⟩

/-- Characterization of the per-match pipeline: `processMatch` resolves the
effective file, keeps the match exactly when the normalized resolved path is
the document path, and then builds the diagnostic from the column-defaulted
match. -/
theorem processMatch_eq (isW : Bool) (absPath : String → Option String) (config : Config)
    (fname : String) (m : Match) :
    processMatch isW absPath config fname m =
      match absPath (effectiveFile isW config fname m) with
      | none => none
      | some p =>
        if normPath isW p = fname then some (buildDiagnostic config (defaultColumn m))
        else none := by
  by_cases h : config.LintStdin ∧ (m.F = "stdin" ∨ m.F = "-") <;>
    by_cases hc : m.C = 0 <;>
      simp [processMatch, effectiveFile, defaultColumn, buildDiagnostic, h, hc, ite_not]

/-- C5: every surviving match becomes a point diagnostic (start = end) at
zero-based line `match.line − 1 − lint-offset` and zero-based column
`match.column − 1` after a reported column of 0 has been replaced by 1,
carrying the match's message and the fixed severity 1. -/
theorem surviving_match_diagnostic_fields (isW : Bool) (absPath : String → Option String)
    (config : Config) (fname : String) (m : Match) (d : Diagnostic)
    (h : processMatch isW absPath config fname m = some d) :
    d.Range.Start = d.Range.End ∧
    d.Range.Start.Line = m.L - 1 - config.LintOffset ∧
    d.Range.Start.Character = (if m.C = 0 then 1 else m.C) - 1 ∧
    d.Message = m.M ∧
    d.Severity = 1 := by
  rw [processMatch_eq] at h
  cases habs : absPath (effectiveFile isW config fname m) with
  | none => rw [habs] at h; exact absurd h (by simp)
  | some p =>
    rw [habs] at h
    have h2 : (if normPath isW p = fname then some (buildDiagnostic config (defaultColumn m))
        else none) = some d := h
    by_cases hp : normPath isW p = fname
    · rw [if_pos hp] at h2
      have hd : d = buildDiagnostic config (defaultColumn m) := by
        injection h2 with h3
        exact h3.symm
      subst hd
      by_cases hc : m.C = 0 <;> simp [buildDiagnostic, defaultColumn, hc]
    · rw [if_neg hp] at h2
      exact absurd h2 (by simp)

/-- C5 witness: the match `a.c:3` with column 0 and offset 0 yields the point
diagnostic at line 2, character 0, severity 1. -/
theorem surviving_match_diagnostic_fields_witness :
    (⟨⟨⟨2, 0⟩, ⟨2, 0⟩⟩, "msg", 1⟩ : Diagnostic).Range.Start =
        (⟨⟨⟨2, 0⟩, ⟨2, 0⟩⟩, "msg", 1⟩ : Diagnostic).Range.End ∧
    (⟨⟨⟨2, 0⟩, ⟨2, 0⟩⟩, "msg", 1⟩ : Diagnostic).Range.Start.Line =
        (⟨"a.c", 3, 0, "msg"⟩ : Match).L - 1 - cfgPlain.LintOffset ∧
    (⟨⟨⟨2, 0⟩, ⟨2, 0⟩⟩, "msg", 1⟩ : Diagnostic).Range.Start.Character =
        (if (⟨"a.c", 3, 0, "msg"⟩ : Match).C = 0 then 1 else (⟨"a.c", 3, 0, "msg"⟩ : Match).C) - 1 ∧
    (⟨⟨⟨2, 0⟩, ⟨2, 0⟩⟩, "msg", 1⟩ : Diagnostic).Message = (⟨"a.c", 3, 0, "msg"⟩ : Match).M ∧
    (⟨⟨⟨2, 0⟩, ⟨2, 0⟩⟩, "msg", 1⟩ : Diagnostic).Severity = 1 :=
  surviving_match_diagnostic_fields false absWork cfgPlain "/work/a.c"
    ⟨"a.c", 3, 0, "msg"⟩ ⟨⟨⟨2, 0⟩, ⟨2, 0⟩⟩, "msg", 1⟩ (by decide)

/-- C10: the published line is the unclamped integer `L − 1 − offset`; with
offset 5 and a match on line 1 the run publishes a diagnostic whose line is
the negative number −5. -/
theorem diagnostic_line_unclamped :
    (∀ (isW : Bool) (absPath : String → Option String) (config : Config)
        (fname : String) (m : Match) (d : Diagnostic),
      processMatch isW absPath config fname m = some d →
        d.Range.Start.Line = m.L - 1 - config.LintOffset ∧
        d.Range.End.Line = m.L - 1 - config.LintOffset) ∧
    lintLines false absWork [efmA] cfgOffset5 "/work/a.c" ["a.c:1:2:boom"] =
      [⟨⟨⟨-5, 0⟩, ⟨-5, 0⟩⟩, "2:boom", 1⟩] ∧
    (-5 : Int) < 0 := by
  refine ⟨?_, by decide, by decide⟩
  intro isW absPath config fname m d h
  rw [processMatch_eq] at h
  cases habs : absPath (effectiveFile isW config fname m) with
  | none => rw [habs] at h; exact absurd h (by simp)
  | some p =>
    rw [habs] at h
    have h2 : (if normPath isW p = fname then some (buildDiagnostic config (defaultColumn m))
        else none) = some d := h
    by_cases hp : normPath isW p = fname
    · rw [if_pos hp] at h2
      have hd : d = buildDiagnostic config (defaultColumn m) := by
        injection h2 with h3
        exact h3.symm
      subst hd
      by_cases hc : m.C = 0 <;> simp [buildDiagnostic, defaultColumn, hc]
    · rw [if_neg hp] at h2
      exact absurd h2 (by simp)

/-- C10 witness: the first conjunct applied to the concrete surviving match
on line 1 under offset 5 gives the negative published line −5. -/
theorem diagnostic_line_unclamped_witness :
    (⟨⟨⟨-5, 0⟩, ⟨-5, 0⟩⟩, "2:boom", 1⟩ : Diagnostic).Range.Start.Line =
        (⟨"a.c", 1, 0, "2:boom"⟩ : Match).L - 1 - cfgOffset5.LintOffset ∧
    (⟨⟨⟨-5, 0⟩, ⟨-5, 0⟩⟩, "2:boom", 1⟩ : Diagnostic).Range.End.Line =
        (⟨"a.c", 1, 0, "2:boom"⟩ : Match).L - 1 - cfgOffset5.LintOffset :=
  diagnostic_line_unclamped.1 false absWork cfgOffset5 "/work/a.c"
    ⟨"a.c", 1, 0, "2:boom"⟩ ⟨⟨⟨-5, 0⟩, ⟨-5, 0⟩⟩, "2:boom", 1⟩ (by decide)

/-- Inner loop of `lintLines`: folding the patterns over one line appends,
in pattern order, exactly the diagnostics the surviving matches produce. -/
theorem lintLines_inner_eq (isW : Bool) (absPath : String → Option String)
    (config : Config) (fname : String) (line : String) :
    ∀ (efms : List Efm) (acc : List Diagnostic),
      efms.foldl
        (fun diagnostics ef =>
          match ef line with
          | none => diagnostics
          | some m =>
            match processMatch isW absPath config fname m with
            | none => diagnostics
            | some d => diagnostics ++ [d])
        acc
      = acc ++ efms.filterMap (fun ef => lineMatch isW absPath config fname ef line) := by
  intro efms
  induction efms with
  | nil => intro acc; simp
  | cons ef rest ih =>
    intro acc
    simp only [List.foldl_cons, List.filterMap_cons]
    cases hef : ef line with
    | none => simp only [lineMatch, hef]; exact ih acc
    | some m =>
      cases hpm : processMatch isW absPath config fname m with
      | none => simp only [lineMatch, hef, hpm]; exact ih acc
      | some d =>
        simp only [lineMatch, hef, hpm]
        rw [ih (acc ++ [d])]
        simp [lineMatch]

/-- Characterization of `lintLines` as a flat map over lines and patterns,
shared helper. -/
theorem lintLines_eq_flatMap (isW : Bool)
    (absPath : String → Option String) (efms : List Efm) (config : Config)
    (fname : String) (outputLines : List String) :
    lintLines isW absPath efms config fname outputLines =
      outputLines.flatMap
        (fun line => efms.filterMap (fun ef => lineMatch isW absPath config fname ef line)) := by
  unfold lintLines
  suffices h : ∀ (ls : List String) (acc : List Diagnostic),
      ls.foldl
        (fun diagnostics line =>
          efms.foldl
            (fun diagnostics ef =>
              match ef line with
              | none => diagnostics
              | some m =>
                match processMatch isW absPath config fname m with
                | none => diagnostics
                | some d => diagnostics ++ [d])
            diagnostics)
        acc
      = acc ++ ls.flatMap
          (fun line => efms.filterMap (fun ef => lineMatch isW absPath config fname ef line)) by
    rw [h outputLines []]
    simp
  intro ls
  induction ls with
  | nil => intro acc; simp
  | cons l rest ih =>
    intro acc
    simp only [List.foldl_cons, List.flatMap_cons]
    rw [lintLines_inner_eq isW absPath config fname l efms acc, ih]
    simp

/-- C1 (amended): the output lines are processed in order, every configured
pattern is tried against every line in configuration order, and every
pattern that matches contributes its own surviving diagnostic — one line can
contribute up to one diagnostic per configured pattern, with no first-match
cutoff. -/
theorem lintLines_every_matching_pattern_contributes (isW : Bool)
    (absPath : String → Option String) (efms : List Efm) (config : Config)
    (fname : String) (outputLines : List String) :
    lintLines isW absPath efms config fname outputLines =
      outputLines.flatMap
        (fun line => efms.filterMap (fun ef => lineMatch isW absPath config fname ef line)) :=
  lintLines_eq_flatMap isW absPath efms config fname outputLines

/-- C1 counterexample: a single output line matched by two configured
patterns contributes two diagnostics in one run — the first matching pattern
does not win. -/
theorem one_line_two_diagnostics :
    (["a.c:1:2:boom"] : List String).length = 1 ∧
    (lintLines false absWork [efmA, efmB] cfgPlain "/work/a.c" ["a.c:1:2:boom"]).length = 2 := by
  constructor
  · rfl
  · decide

/-- C3: every diagnostic a lint run produces comes from a match whose
effective file, resolved to an absolute path and normalized, equals the
normalized document path `fname`; and any match whose resolved normalized
path differs from `fname` (or fails to resolve) is dropped. -/
theorem lint_diagnostics_same_document (isW : Bool) (absPath : String → Option String)
    (efms : List Efm) (config : Config) (fname : String) (outputLines : List String) :
    (∀ d, d ∈ lintLines isW absPath efms config fname outputLines →
      ∃ line ef m p, line ∈ outputLines ∧ ef ∈ efms ∧ ef line = some m ∧
        absPath (effectiveFile isW config fname m) = some p ∧
        normPath isW p = fname) ∧
    (∀ m : Match,
      (∀ p, absPath (effectiveFile isW config fname m) = some p → normPath isW p ≠ fname) →
      processMatch isW absPath config fname m = none) := by
  constructor
  · intro d hd
    rw [lintLines_eq_flatMap] at hd
    rcases List.mem_flatMap.1 hd with ⟨line, hline, hd2⟩
    rcases List.mem_filterMap.1 hd2 with ⟨ef, hef, heq⟩
    have heq2 : (match ef line with
        | none => none
        | some m => processMatch isW absPath config fname m) = some d := heq
    cases hef2 : ef line with
    | none =>
      rw [hef2] at heq2
      have hcontra : (none : Option Diagnostic) = some d := heq2
      exact absurd hcontra (by simp)
    | some m =>
      rw [hef2] at heq2
      have heq3 : processMatch isW absPath config fname m = some d := heq2
      rw [processMatch_eq] at heq3
      cases habs : absPath (effectiveFile isW config fname m) with
      | none =>
        rw [habs] at heq3
        have hcontra : (none : Option Diagnostic) = some d := heq3
        exact absurd hcontra (by simp)
      | some p =>
        rw [habs] at heq3
        have heq4 : (if normPath isW p = fname then
            some (buildDiagnostic config (defaultColumn m)) else none) = some d := heq3
        by_cases hp : normPath isW p = fname
        · exact ⟨line, ef, m, p, hline, hef, hef2, habs, hp⟩
        · rw [if_neg hp] at heq4
          exact absurd heq4 (by simp)
  · intro m hm
    rw [processMatch_eq]
    cases habs : absPath (effectiveFile isW config fname m) with
    | none => rfl
    | some p =>
      show (if normPath isW p = fname then
          some (buildDiagnostic config (defaultColumn m)) else none) = none
      rw [if_neg (hm p habs)]

/-- C3 witness: a match reporting `other.c` (resolved to `/work/other.c`)
while the document is `/work/a.c` is dropped by the same-document filter. -/
theorem lint_diagnostics_same_document_witness :
    processMatch false absWork cfgPlain "/work/a.c" ⟨"other.c", 1, 1, "x"⟩ = none := by
  apply (lint_diagnostics_same_document false absWork [efmA] cfgPlain "/work/a.c" []).2
  intro p hp
  have hcalc : absWork (effectiveFile false cfgPlain "/work/a.c" ⟨"other.c", 1, 1, "x"⟩) =
      some "/work/other.c" := rfl
  rw [hcalc] at hp
  injection hp with hp2
  rw [← hp2]
  decide

/-- C6: under stdin delivery a match reporting the placeholder `stdin` or `-`
is charged to the document path itself (and, when the document path is a
fixed point of absolute resolution and normalization, the match survives the
same-document filter); in every other case the reported file is merely
slash-normalized. -/
theorem stdin_placeholder_substitution (isW : Bool) (absPath : String → Option String)
    (config : Config) (fname : String) (m : Match) :
    (config.LintStdin = true → (m.F = "stdin" ∨ m.F = "-") →
      effectiveFile isW config fname m = fname ∧
      (absPath fname = some fname → normPath isW fname = fname →
        processMatch isW absPath config fname m =
          some (buildDiagnostic config (defaultColumn m)))) ∧
    ((config.LintStdin = false ∨ (m.F ≠ "stdin" ∧ m.F ≠ "-")) →
      effectiveFile isW config fname m = toSlash isW m.F) := by
  constructor
  · intro hst hf
    have heff : effectiveFile isW config fname m = fname := by
      rcases hf with hf | hf <;> simp [effectiveFile, hst, hf]
    refine ⟨heff, ?_⟩
    intro habs hnorm
    rw [processMatch_eq, heff, habs]
    simp [hnorm]
  · intro h2
    rcases h2 with h2 | ⟨h2a, h2b⟩
    · simp [effectiveFile, h2]
    · simp [effectiveFile, h2a, h2b]

/-- C6 witness: with stdin delivery, the match `stdin:3:4:bad` is charged
to the document `/work/a.c` and survives as a diagnostic. -/
theorem stdin_placeholder_substitution_witness :
    effectiveFile false cfgStdin "/work/a.c" ⟨"stdin", 3, 4, "bad"⟩ = "/work/a.c" ∧
    processMatch false absWork cfgStdin "/work/a.c" ⟨"stdin", 3, 4, "bad"⟩ =
      some (buildDiagnostic cfgStdin (defaultColumn ⟨"stdin", 3, 4, "bad"⟩)) := by
  have h := (stdin_placeholder_substitution false absWork cfgStdin "/work/a.c"
      ⟨"stdin", 3, 4, "bad"⟩).1 rfl (Or.inl rfl)
  exact ⟨h.1, h.2 rfl rfl⟩

/-- C2: `NewHandler`'s defaulting loop never reaches the stored map — for a
language whose format slice is nil, the stored configuration still has a nil
slice, not the two defaults, although the loop body itself (on the copy)
would have set them; the stored map differs from the spec-intended one. -/
theorem defaults_never_stored :
    newHandlerConfigs [("python", cfgNilFormats)] = [("python", cfgNilFormats)] ∧
    ((newHandlerConfigs [("python", cfgNilFormats)]).lookup "python").map
        Config.LintErrorFormats = some none ∧
    (newHandlerLoopBody cfgNilFormats).LintErrorFormats = some defaultLintErrorFormats ∧
    newHandlerConfigsSpec [("python", cfgNilFormats)] ≠
      newHandlerConfigs [("python", cfgNilFormats)] := by
  refine ⟨rfl, rfl, rfl, ?_⟩
  decide

/-- C7: when the resolved configuration carries no lint command — in
particular for a language with no registered configuration, where
`configFor` yields the zero configuration — the run publishes no
diagnostics and surfaces no error (the empty command is handed to the
shell, which exits zero, hypothesis `hrun`). -/
theorem no_command_no_diagnostics (isW : Bool) (parseURI : String → Option URL)
    (absPath : String → Option String) (compileFmts : List String → Option (List Efm))
    (run : String → Bool → String → ExecResult)
    (files : List (String × File)) (configs : List (String × Config)) (uri : String)
    (hrun : ∀ b t, (run "" b t).exitOk = true)
    (hcmd : (configFor files configs uri).LintCommand = "") :
    lint isW parseURI absPath compileFmts run files configs uri = [] ∧
    (∀ f, files.lookup uri = some f → configs.lookup f.LanguageId = none →
        configFor files configs uri = Config.zero) := by
  constructor
  · simp only [lint]
    split
    · rfl
    split
    · rfl
    split
    · rfl
    split
    · rfl
    rw [hcmd]
    simp [hrun]
  · intro f hf hnone
    unfold configFor
    rw [hf]
    show (configs.lookup f.LanguageId).getD Config.zero = Config.zero
    rw [hnone]
    rfl

/-- C7 witness: a document whose language has no registered configuration
yields the zero configuration and an empty diagnostic list. -/
theorem no_command_no_diagnostics_witness :
    lint false parseW absWork compileEmpty runOkEmpty
        [("file:///w/a.c", ⟨"python", "x"⟩)] [] "file:///w/a.c" = [] ∧
    configFor [("file:///w/a.c", ⟨"python", "x"⟩)] [] "file:///w/a.c" = Config.zero := by
  have h := no_command_no_diagnostics false parseW absWork compileEmpty runOkEmpty
      [("file:///w/a.c", ⟨"python", "x"⟩)] [] "file:///w/a.c"
      (fun _ _ => rfl) rfl
  exact ⟨h.1, h.2 ⟨"python", "x"⟩ rfl rfl⟩

/-- Reading back the key just written into the association-list map gives the
written value. -/
theorem lookup_mapInsert_self (ms : List (String × File)) (k : String) (v : File) :
    (mapInsert ms k v).lookup k = some v := by
  induction ms with
  | nil => simp [mapInsert, List.lookup]
  | cons kv rest ih =>
    obtain ⟨k0, v0⟩ := kv
    by_cases h : k0 = k
    · simp [mapInsert, h, List.lookup]
    · have hbeq : (k == k0) = false := by
        simp
        exact fun he => h he.symm
      simp [mapInsert, h, List.lookup, hbeq]
      exact ih

/-- C9: a parsed `didOpen` stores the document with its declared language
and initial text and hands exactly one lint request for its URI to the
dispatcher, exactly as an update does. -/
theorem didOpen_stores_and_enqueues (h : LangHandler) (td : DidOpenTextDocumentItem) :
    ∃ h2, handleTextDocumentDidOpen h td = .ok h2 ∧
      h2.files.lookup td.URI = some ⟨td.LanguageID, td.Text⟩ ∧
      h2.sent = h.sent ++ [td.URI] := by
  unfold handleTextDocumentDidOpen LangHandler.openFile LangHandler.updateFile
  rw [lookup_mapInsert_self]
  refine ⟨_, rfl, ?_, rfl⟩
  rw [lookup_mapInsert_self]

/-- One worker step leaves the publishes-done-plus-publishes-pending
sequence unchanged. -/
theorem pendingAll_step (lintFn : String → List Diagnostic) (s t : LinterState)
    (h : LinterStep lintFn s t) : pendingAll lintFn t = pendingAll lintFn s := by
  cases h with
  | take u q p => simp [pendingAll]
  | publish u q p => simp [pendingAll]

/-- Any sequence of worker steps leaves the publishes-done-plus-pending
sequence unchanged. -/
theorem pendingAll_steps (lintFn : String → List Diagnostic) (s t : LinterState)
    (h : Relation.ReflTransGen (LinterStep lintFn) s t) :
    pendingAll lintFn t = pendingAll lintFn s := by
  induction h with
  | refl => rfl
  | tail _ hstep ih => rw [pendingAll_step lintFn _ _ hstep, ih]

/-- C8: if two requests sit in the handoff queue (in order `u1`, `u2`) and
the idle single worker drains them, then when the queue is empty and the
worker idle again it has performed exactly two runs and appended exactly two
publishes, first for `u1` then for `u2` — FIFO, no deduplication; the single
`running` slot of `LinterState` is the one lint run ever in flight. -/
theorem two_requests_two_publishes_fifo (lintFn : String → List Diagnostic)
    (u1 u2 : String) (ps ps2 : List (String × List Diagnostic))
    (h : Relation.ReflTransGen (LinterStep lintFn) ⟨[u1, u2], none, ps⟩ ⟨[], none, ps2⟩) :
    ps2 = ps ++ [(u1, lintFn u1), (u2, lintFn u2)] := by
  have h2 := pendingAll_steps lintFn _ _ h
  simpa [pendingAll] using h2

/-- C8 witness: the explicit four-step drain (take `a`, publish `a`, take
`b`, publish `b`) of a two-element queue yields the two publishes in FIFO
order. -/
theorem two_requests_two_publishes_fifo_witness :
    ∃ ps2, Relation.ReflTransGen (LinterStep lfZero) ⟨["a", "b"], none, []⟩ ⟨[], none, ps2⟩ ∧
      ps2 = [] ++ [("a", lfZero "a"), ("b", lfZero "b")] := by
  have trace : Relation.ReflTransGen (LinterStep lfZero) ⟨["a", "b"], none, []⟩
      ⟨[], none, [("a", lfZero "a"), ("b", lfZero "b")]⟩ :=
    Relation.ReflTransGen.head (LinterStep.take "a" ["b"] [])
      (Relation.ReflTransGen.head (LinterStep.publish "a" ["b"] [])
        (Relation.ReflTransGen.head (LinterStep.take "b" [] [("a", lfZero "a")])
          (Relation.ReflTransGen.head (LinterStep.publish "b" [] [("a", lfZero "a")])
            Relation.ReflTransGen.refl)))
  exact ⟨_, trace, two_requests_two_publishes_fifo lfZero "a" "b" [] _ trace⟩

/-- Appending a string to `/` prepends a slash to its character data. -/
theorem slash_append_data (p : String) : ("/" ++ p).data = '/' :: p.data := by
  cases p with
  | mk l => rfl

/-- A path that is a fixed point of slash normalization stays one after the
`/` prefix `toURI` adds. -/
theorem toSlash_slash (isW : Bool) (p : String) (h : toSlash isW p = p) :
    toSlash isW ("/" ++ p) = "/" ++ p := by
  cases isW with
  | false => simp [toSlash]
  | true =>
    have hd : p.data.map (fun c => if c = '\\' then '/' else c) = p.data := by
      have h2 := congrArg String.data h
      simpa [toSlash] using h2
    show (⟨("/" ++ p).data.map (fun c => if c = '\\' then '/' else c)⟩ : String) = "/" ++ p
    rw [slash_append_data]
    show (⟨'/' :: p.data.map (fun c => if c = '\\' then '/' else c)⟩ : String) = "/" ++ p
    rw [hd]
    cases p with
    | mk l => rfl

/-- A path whose first character is `/` is not a Windows drive path. -/
theorem isWindowsDrivePath_slash_lead (p : String) (h0 : p.data.getD 0 ' ' = '/') :
    isWindowsDrivePath p = false := by
  unfold isWindowsDrivePath
  split
  · rfl
  · rw [h0]
    have halpha : ('/').isAlpha = false := by decide
    rw [halpha]
    exact Bool.false_and _

/-- C4 counterexample: the absolute POSIX-style path `/c:/x` does not
round-trip (`fromURI` strips its leading slash, mistaking it for a drive
URI), and for the absolute drive-root path `C:/` (shorter than the
4 characters `isWindowsDrivePath` demands) the intermediate URI path does
not begin with `/`. -/
theorem uri_roundtrip_counterexample :
    fromURIOfURL (toURI false "/c:/x") = Except.ok "c:/x" ∧
    ("c:/x" : String) ≠ "/c:/x" ∧
    (toURI true "C:/").Path = "C:/" ∧
    ("C:/" : String).data.getD 0 ' ' ≠ '/' := by
  refine ⟨rfl, by decide, rfl, by decide⟩

/-- C4 (amended): an absolute POSIX-style path round-trips through
`toURI`/`fromURI` provided it does not itself have the `/letter:` drive-URI
form; a path accepted by `isWindowsDrivePath` (length at least 4, letter,
colon) that is already slash-normalized round-trips, and its intermediate
URI path begins with `/`. -/
theorem uri_roundtrip_amended :
    (∀ p : String, p.data.getD 0 ' ' = '/' → isWindowsDriveURI p = false →
      fromURIOfURL (toURI false p) = .ok p) ∧
    (∀ (isW : Bool) (p : String), isWindowsDrivePath p = true → toSlash isW p = p →
      fromURIOfURL (toURI isW p) = .ok p ∧
        (toURI isW p).Path.data.getD 0 ' ' = '/') := by
  constructor
  · intro p h0 hw
    have hdp := isWindowsDrivePath_slash_lead p h0
    simp only [toURI, hdp, Bool.false_eq_true, if_false, toSlash, ite_self]
    simp [fromURIOfURL, hw]
  · intro isW p hdrive hsl
    have hlen : ¬ (p.length < 4) := by
      by_contra hlt
      unfold isWindowsDrivePath at hdrive
      rw [if_pos hlt] at hdrive
      exact absurd hdrive (by simp)
    have hcond : ((p.data.getD 0 ' ').isAlpha && (p.data.getD 1 ' ' == ':')) = true := by
      unfold isWindowsDrivePath at hdrive
      rwa [if_neg hlen] at hdrive
    rw [Bool.and_eq_true] at hcond
    obtain ⟨halpha, hcolon⟩ := hcond
    have htu : toURI isW p = ⟨"file", "/" ++ p⟩ := by
      simp [toURI, hdrive, toSlash_slash isW p hsl]
    rw [htu]
    have hlen2 : ("/" ++ p).length = p.length + 1 := by
      show ("/" ++ p).data.length = p.length + 1
      rw [slash_append_data]
      rfl
    have huri : isWindowsDriveURI ("/" ++ p) = true := by
      unfold isWindowsDriveURI
      rw [if_neg (by omega)]
      rw [slash_append_data]
      simp only [List.getD_cons_zero, List.getD_cons_succ]
      rw [halpha, hcolon]
      rfl
    constructor
    · have hstrip : (⟨("/" ++ p).data.drop 1⟩ : String) = p := by
        rw [slash_append_data]
        show (⟨p.data⟩ : String) = p
        rfl
      simp [fromURIOfURL, huri, hstrip]
    · rw [slash_append_data]
      rfl

/-- C4 witness: the amended round-trip at the POSIX path `/home/u/a.c` and
at the Windows drive path `C:/Users/me`. -/
theorem uri_roundtrip_amended_witness :
    fromURIOfURL (toURI false "/home/u/a.c") = .ok "/home/u/a.c" ∧
    (fromURIOfURL (toURI true "C:/Users/me") = .ok "C:/Users/me" ∧
      (toURI true "C:/Users/me").Path.data.getD 0 ' ' = '/') :=
  ⟨uri_roundtrip_amended.1 "/home/u/a.c" rfl (by decide),
   uri_roundtrip_amended.2 true "C:/Users/me" (by decide) rfl⟩

end EfmLangServer
